import Mathlib

/-
Verification of the composite-loss and training-loop core of the
qa_with_transformes repository.

Tensors are embedded as lists of rationals: a [batch, seq] tensor is a
`List (List ℚ)`, a [batch, seq, vocab] tensor a `List (List (List ℚ))`.
The transcendental per-token primitives (cross entropy over a logit
vector, binary cross entropy with logits, exp) are abstracted as
function parameters, since every claim under verification is about the
masking, weighting, counting and reduction structure that surrounds
them, which is exact rational arithmetic.  Float division by zero,
which in the source produces an infinity that is then rewritten to
zero, is modelled by the explicit value type `FVal` with an `inf`
constructor.
-/

/-- Source: losses.py `_EPSILON = 1e-7`. -/
def _EPSILON : ℚ := 1 / 10000000

/-- Mean of a list of rationals (torch.mean over dim 0). -/
def listMean (l : List ℚ) : ℚ := l.sum / (l.length : ℚ)

/-- Source: losses.py `apply_reduction`.  For reduction "none" the input is
returned unchanged; otherwise an empty input is first replaced by the
singleton [0]; "mean" and "sum" reduce to a single scalar; any other
reduction string raises ValueError. -/
def apply_reduction (input : List ℚ) (reduction : String) : Except String (List ℚ) :=
  if reduction = "none" then Except.ok input
  else
    let input := if input.length = 0 then [0] else input
    if reduction = "mean" then Except.ok [listMean input]
    else if reduction = "sum" then Except.ok [input.sum]
    else Except.error "Invalid reduction. Supported values are none, mean and sum."

/-- Boolean-mask row indexing `t[mask.bool()]`: keep the rows whose mask bit
is true. -/
def maskKeep (v : List Bool) (xs : List α) : List α :=
  ((xs.zip v).filter (fun p => p.2)).map (fun p => p.1)

/-- Optional boolean-mask row indexing: `None` keeps everything. -/
def maskFilter (mask : Option (List Bool)) (xs : List α) : List α :=
  match mask with
  | some m => maskKeep m xs
  | none => xs

/-- Per-token cross entropy as used by `F.cross_entropy(..., reduction="none")`
with the torch default `ignore_index = -100`: an ignored target position
contributes zero loss; otherwise the abstract cross-entropy primitive `ce`
is applied to the vocabulary logit vector and the target id. -/
def tokenCE (ce : List ℚ → ℤ → ℚ) (logits : List ℚ) (label : ℤ) : ℚ :=
  if label = -100 then 0 else ce logits label

/-- Source: losses.py `generative_loss` lines 73-74: the per-example count of
non-ignored tokens, clamped from below by `_EPSILON`. -/
def n_tokens_clamped (labels : List ℤ) : ℚ :=
  max ((labels.countP (fun x => x != -100) : ℕ) : ℚ) _EPSILON

/-- One example of `generative_loss`: summed per-token cross entropy divided
by the clamped count of non-ignored target tokens. -/
def genPerExample (ce : List ℚ → ℤ → ℚ) (lg : List (List ℚ)) (lb : List ℤ) : ℚ :=
  (List.zipWith (tokenCE ce) lg lb).sum / n_tokens_clamped lb

/-- The vector of per-example generative losses, after the optional
example-mask row filtering. -/
def genLossVector (ce : List ℚ → ℤ → ℚ) (logits : List (List (List ℚ)))
    (labels : List (List ℤ)) (mask : Option (List Bool)) : List ℚ :=
  List.zipWith (genPerExample ce) (maskFilter mask logits) (maskFilter mask labels)

/-- Source: losses.py `generative_loss`. -/
def generative_loss (ce : List ℚ → ℤ → ℚ) (logits : List (List (List ℚ)))
    (labels : List (List ℤ)) (reduction : String) (mask : Option (List Bool)) :
    Except String (List ℚ) :=
  apply_reduction (genLossVector ce logits labels mask) reduction

/-- A float value that is either finite or the infinity produced by
dividing a positive float by zero. -/
inductive FVal where
  | fin (q : ℚ)
  | inf
deriving DecidableEq

/-- Float division with a positive numerator: denominator zero gives inf. -/
def divF (a b : ℚ) : FVal := if b = 0 then FVal.inf else FVal.fin (a / b)

/-- Source: losses.py line 141 `torch.where(weights != torch.inf, weights, 0.0)`:
a finite weight is kept, an infinite weight is rewritten to zero. -/
def FVal.toZero : FVal → ℚ
  | FVal.fin q => q
  | FVal.inf => 0

/-- Source: losses.py `rationale_loss` lines 134-140: the raw per-position
weights of one example, `totals / positives` at label-1 positions and
`totals / negatives` elsewhere, with `totals` clamped from below by
`_EPSILON`; a zero class count makes the division infinite. -/
def exampleRawWeights (labels pmask : List ℚ) : List FVal :=
  labels.map (fun lb =>
    if lb = 1 then divF (max pmask.sum _EPSILON) labels.sum
    else divF (max pmask.sum _EPSILON) (pmask.sum - labels.sum))

/-- Source: losses.py `rationale_loss` lines 134-146: raw weights, the
inf-to-zero rewrite, zeroing outside the passage mask, and normalization
of the example weight vector by its clamped sum. -/
def exampleWeights (labels pmask : List ℚ) : List ℚ :=
  let w1 := (exampleRawWeights labels pmask).map FVal.toZero
  let w2 := List.zipWith (fun w p => w * p) w1 pmask
  let nf := max w2.sum _EPSILON
  w2.map (fun w => w / nf)

/-- Source: losses.py `rationale_loss` lines 121-126: per-example validity:
the masked-label rationale length must not exceed the threshold, and the
optional example mask must keep the example. -/
def validFlags (labels pmask : List (List ℚ)) (max_rationale_length : ℚ)
    (mask : Option (List Bool)) : List Bool :=
  let ml := List.zipWith (List.zipWith (fun a b => a * b)) labels pmask
  let valid := (ml.map List.sum).map (fun le => decide (le ≤ max_rationale_length))
  match mask with
  | some m => List.zipWith (fun a b => a && b) valid m
  | none => valid

/-- Three-list zipWith, used for row-aligned tensor triples. -/
def zipWith3 (f : α → β → γ → δ) : List α → List β → List γ → List δ
  | a :: as, b :: bs, c :: cs => f a b c :: zipWith3 f as bs cs
  | _, _, _ => []

/-- The vector of per-example rationale losses: after validity filtering,
each surviving example contributes the sum over its sequence of
`weight * BCE(logit, label)`, with `bce` the abstract binary-cross-entropy
primitive of `F.binary_cross_entropy_with_logits`. -/
def ratLossVector (bce : ℚ → ℚ → ℚ) (logits labels pmask : List (List ℚ))
    (max_rationale_length : ℚ) (mask : Option (List Bool)) : List ℚ :=
  let valid := validFlags labels pmask max_rationale_length mask
  let ml := List.zipWith (List.zipWith (fun a b => a * b)) labels pmask
  let labelsK := maskKeep valid ml
  let pmaskK := maskKeep valid pmask
  let logitsK := maskKeep valid logits
  let weights := List.zipWith exampleWeights labelsK pmaskK
  zipWith3 (fun lg lb w => (zipWith3 (fun x y wi => wi * bce x y) lg lb w).sum)
    logitsK labelsK weights

/-- Source: losses.py `rationale_loss`. -/
def rationale_loss (bce : ℚ → ℚ → ℚ) (logits labels pmask : List (List ℚ))
    (max_rationale_length : ℚ) (reduction : String) (mask : Option (List Bool)) :
    Except String (List ℚ) :=
  apply_reduction (ratLossVector bce logits labels pmask max_rationale_length mask)
    reduction

/-- The vector of per-example focal losses before reduction: per-example
cross entropy `c`, focal factor `alpha * (1 - exp (-c)) ^ gamma`, and the
optional per-class weight looked up by the integer label. -/
def focalLossVector (ceCls : List ℚ → ℤ → ℚ) (expQ : ℚ → ℚ)
    (input : List (List ℚ)) (target : List ℤ) (weight : Option (List ℚ))
    (alpha : ℚ) (gamma : ℕ) : List ℚ :=
  let ce_loss := List.zipWith ceCls input target
  let loss := ce_loss.map (fun c => alpha * (1 - expQ (-c)) ^ gamma * c)
  match weight with
  | some w => List.zipWith (fun l t => l * w.getD t.toNat 0) loss target
  | none => loss

/-- Source: losses.py `categorical_focal_loss_with_logits`. -/
def categorical_focal_loss_with_logits (ceCls : List ℚ → ℤ → ℚ) (expQ : ℚ → ℚ)
    (input : List (List ℚ)) (target : List ℤ) (weight : Option (List ℚ))
    (alpha : ℚ) (gamma : ℕ) (reduction : String) : Except String (List ℚ) :=
  apply_reduction (focalLossVector ceCls expQ input target weight alpha gamma) reduction

/-- Source: losses.py `yes_no_gen_loss`: optional example masking then focal
loss with the default `alpha = 1.0`, `gamma = 2.0`. -/
def yes_no_gen_loss (ceCls : List ℚ → ℤ → ℚ) (expQ : ℚ → ℚ)
    (logits : List (List ℚ)) (labels : List ℤ) (weight : Option (List ℚ))
    (reduction : String) (mask : Option (List Bool)) : Except String (List ℚ) :=
  categorical_focal_loss_with_logits ceCls expQ (maskFilter mask logits)
    (maskFilter mask labels) weight 1 2 reduction

/-- Model outputs consumed by the encoder-decoder composite loss. -/
structure Outputs where
  logits : List (List (List ℚ))
  encoder_rationale_logits : List (List ℚ)
  encoder_yng_logits : List (List ℚ)

/-- Batch fields consumed by the encoder-decoder composite loss. -/
structure Targets where
  labels : List (List ℤ)
  rationale_labels : List (List ℚ)
  passage_mask : List (List ℚ)
  yng_label : List ℤ
  yes_no : List Bool

/-- The scalar held by a reduced (singleton) loss tensor, as read by
`.item()`. -/
def meanScalar (e : Except String (List ℚ)) : ℚ :=
  match e with
  | Except.ok l => l.headD 0
  | Except.error _ => 0

/-- Source: losses.py `EncoderDecoderLoss.__init__` construction-time
parameters. -/
structure EncoderDecoderLoss where
  max_rationale_length : ℚ
  yng_loss_weight : ℚ
  rationale_loss_weight : ℚ
  generative_loss_weight : ℚ

/-- Source: losses.py `EncoderDecoderLoss.forward`: classification loss over
the full batch, rationale and generative losses restricted by the
`NOT yes_no` mask, weighted sum, and the three unweighted component values
returned for logging. -/
def EncoderDecoderLoss.forward (self : EncoderDecoderLoss)
    (ceCls : List ℚ → ℤ → ℚ) (expQ : ℚ → ℚ) (bce : ℚ → ℚ → ℚ)
    (ceTok : List ℚ → ℤ → ℚ) (outputs : Outputs) (targets : Targets) :
    Except String (ℚ × ℚ × ℚ × ℚ) := do
  let is_generative := targets.yes_no.map (fun b => !b)
  let yng ← yes_no_gen_loss ceCls expQ outputs.encoder_yng_logits
    targets.yng_label none "mean" none
  let rat ← rationale_loss bce outputs.encoder_rationale_logits
    targets.rationale_labels targets.passage_mask self.max_rationale_length
    "mean" (some is_generative)
  let gen ← generative_loss ceTok outputs.logits targets.labels
    "mean" (some is_generative)
  let y := yng.headD 0
  let r := rat.headD 0
  let g := gen.headD 0
  Except.ok (self.yng_loss_weight * y + self.rationale_loss_weight * r +
    self.generative_loss_weight * g, y, r, g)

/-- Source: losses.py `EncoderDecoderRationaleLoss`: construction stores the
threshold and the reduction string without validating them. -/
structure EncoderDecoderRationaleLossS where
  max_rationale_length : ℚ
  reduction : String

/-- Source: losses.py `EncoderDecoderRationaleLoss.__call__`. -/
def EncoderDecoderRationaleLossS.call (self : EncoderDecoderRationaleLossS)
    (bce : ℚ → ℚ → ℚ) (outputs : Outputs) (targets : Targets)
    (mask : Option (List Bool)) : Except String (List ℚ) :=
  rationale_loss bce outputs.encoder_rationale_logits targets.rationale_labels
    targets.passage_mask self.max_rationale_length self.reduction mask

/-- The two composite-loss variants selectable by `model_type`. -/
inductive LossChoice where
  | encoderDecoder (max_rationale_length yng_w rat_w gen_w : ℚ)
  | encoderRationale (max_rationale_length : ℚ)
deriving DecidableEq

/-- Source: pipeline.py `make_loss`: the `model_type` enum is validated at
construction; any value other than encoder_decoder or encoder raises
ValueError immediately. -/
def make_loss (model_type : String)
    (max_rationale_length yng_w rat_w gen_w : ℚ) : Except String LossChoice :=
  if model_type = "encoder_decoder" then
    Except.ok (LossChoice.encoderDecoder max_rationale_length yng_w rat_w gen_w)
  else if model_type = "encoder" then
    Except.ok (LossChoice.encoderRationale max_rationale_length)
  else
    Except.error "Invalid model_type. Supported values are encoder_decoder and encoder."

/-- State touched by one training step: abstract parameters, the
accumulated gradient, and the number of times the optimizer, the
learning-rate scheduler and the teacher-force scheduler have stepped. -/
structure TrainState where
  params : ℚ
  grad : ℚ
  optimizerSteps : ℕ
  lrSchedulerSteps : ℕ
  tfSchedulerSteps : ℕ
deriving DecidableEq

/-- Optional gradient clipping (pipeline.py lines 391-395). -/
def applyClip (clip : Option (ℚ → ℚ)) (g : ℚ) : ℚ :=
  match clip with
  | some f => f g
  | none => g

/-- Source: pipeline.py `train_batch` lines 385-401: backward accumulates
the gradient, optional clipping, then `optimizer.step()` and
`optimizer.zero_grad()` only when `step % accumulation_steps == 0`,
while `lr_scheduler.step()` and `teacher_force_scheduler.step()` run
unconditionally. -/
def train_batch (step accumulation_steps : ℕ) (gradContribution : ℚ)
    (clip : Option (ℚ → ℚ)) (optStep : ℚ → ℚ → ℚ) (s : TrainState) : TrainState :=
  let g := applyClip clip (s.grad + gradContribution)
  let s1 :=
    if step % accumulation_steps = 0 then
      { params := optStep s.params g, grad := 0
        optimizerSteps := s.optimizerSteps + 1
        lrSchedulerSteps := s.lrSchedulerSteps
        tfSchedulerSteps := s.tfSchedulerSteps }
    else { s with grad := g }
  { s1 with lrSchedulerSteps := s1.lrSchedulerSteps + 1
            tfSchedulerSteps := s1.tfSchedulerSteps + 1 }

/-- Source: pipeline.py `train` lines 258-299: the per-batch step counter
starts at zero, `train_batch` receives the counter before it is
incremented, so batch `m` runs with `step = m`. -/
def trainLoop (accumulation_steps : ℕ) (grads : ℕ → ℚ) (clip : Option (ℚ → ℚ))
    (optStep : ℚ → ℚ → ℚ) (s : TrainState) : ℕ → TrainState
  | 0 => s
  | m + 1 =>
    train_batch m accumulation_steps (grads m) clip optStep
      (trainLoop accumulation_steps grads clip optStep s m)

/-! Helper lemmas. -/

theorem apply_reduction_mean_eq (l : List ℚ) :
    apply_reduction l "mean" =
      Except.ok [listMean (if l.length = 0 then [0] else l)] := rfl

theorem apply_reduction_none_eq (l : List ℚ) :
    apply_reduction l "none" = Except.ok l := rfl

theorem listMean_single (q : ℚ) : listMean [q] = q := by
  simp [listMean]

theorem zipWith_tokenCE_ignored_sum (ce : List ℚ → ℤ → ℚ) :
    ∀ (lg : List (List ℚ)) (lb : List ℤ), (∀ x ∈ lb, x = -100) →
      (List.zipWith (tokenCE ce) lg lb).sum = 0 := by
  intro lg
  induction lg with
  | nil => intro lb _; simp
  | cons g gs ih =>
    intro lb hlb
    cases lb with
    | nil => simp
    | cons b bs =>
      have hb : b = -100 := hlb b (by simp)
      have hbs : ∀ x ∈ bs, x = -100 := fun x hx => hlb x (by simp [hx])
      simp [tokenCE, hb, ih bs hbs]

theorem train_batch_optSteps (step acc : ℕ) (g : ℚ) (clip : Option (ℚ → ℚ))
    (f : ℚ → ℚ → ℚ) (s : TrainState) :
    (train_batch step acc g clip f s).optimizerSteps =
      s.optimizerSteps + if step % acc = 0 then 1 else 0 := by
  unfold train_batch
  by_cases h : step % acc = 0 <;> simp [h]

theorem trainLoop_optSteps_succ (acc : ℕ) (g : ℕ → ℚ) (clip : Option (ℚ → ℚ))
    (f : ℚ → ℚ → ℚ) (s : TrainState) (m : ℕ) :
    (trainLoop acc g clip f s (m + 1)).optimizerSteps =
      (trainLoop acc g clip f s m).optimizerSteps + if m % acc = 0 then 1 else 0 := by
  simp [trainLoop, train_batch_optSteps]

theorem trainLoop_window_flat (acc : ℕ) (g : ℕ → ℚ) (clip : Option (ℚ → ℚ))
    (f : ℚ → ℚ → ℚ) (s : TrainState) :
    ∀ r, 1 ≤ r → r ≤ acc → ∀ t v,
      (trainLoop acc g clip f s (acc * t + 1)).optimizerSteps = v →
      (trainLoop acc g clip f s (acc * t + r)).optimizerSteps = v := by
  intro r
  induction r with
  | zero => intro h1; exact absurd h1 (by decide)
  | succ r ih =>
    intro _ h2 t v hb
    rcases Nat.eq_zero_or_pos r with hr0 | hr1
    · subst hr0; exact hb
    · have hlt : r < acc := by omega
      have hmod : (acc * t + r) % acc = r % acc := Nat.mul_add_mod acc t r
      have hrr : r % acc = r := Nat.mod_eq_of_lt hlt
      have : acc * t + (r + 1) = (acc * t + r) + 1 := by omega
      rw [this, trainLoop_optSteps_succ, hmod, hrr, if_neg (by omega)]
      simpa using ih hr1 (by omega) t v hb

theorem trainLoop_windows (acc : ℕ) (hacc : 0 < acc) (g : ℕ → ℚ)
    (clip : Option (ℚ → ℚ)) (f : ℚ → ℚ → ℚ) (s : TrainState) :
    ∀ j, (trainLoop acc g clip f s (acc * j + 1)).optimizerSteps =
      s.optimizerSteps + j + 1 := by
  intro j
  induction j with
  | zero =>
    simp [trainLoop, train_batch_optSteps]
  | succ j ih =>
    have h1 : acc * (j + 1) + 1 = (acc * j + acc) + 1 := by ring
    have hmod : (acc * j + acc) % acc = 0 := by
      have : acc * j + acc = acc * (j + 1) := by ring
      rw [this]; exact Nat.mul_mod_right acc (j + 1)
    have hbase := trainLoop_window_flat acc g clip f s acc hacc le_rfl j
      (s.optimizerSteps + j + 1) ih
    rw [h1, trainLoop_optSteps_succ, hmod, if_pos rfl, hbase]
    omega

/-- C2: in `train_batch`, the optimizer step and gradient zeroing are applied
only when `step % accumulation_steps == 0` (otherwise the accumulated
gradient persists and the parameters are untouched), while the
learning-rate scheduler and the teacher-force scheduler are stepped on
every call regardless of the accumulation boundary. -/
theorem C2_scheduler_optimizer_asymmetry (step acc : ℕ) (g : ℚ)
    (clip : Option (ℚ → ℚ)) (f : ℚ → ℚ → ℚ) (s : TrainState) :
    ((train_batch step acc g clip f s).lrSchedulerSteps = s.lrSchedulerSteps + 1) ∧
    ((train_batch step acc g clip f s).tfSchedulerSteps = s.tfSchedulerSteps + 1) ∧
    (step % acc ≠ 0 →
      (train_batch step acc g clip f s).params = s.params ∧
      (train_batch step acc g clip f s).optimizerSteps = s.optimizerSteps ∧
      (train_batch step acc g clip f s).grad = applyClip clip (s.grad + g)) ∧
    (step % acc = 0 →
      (train_batch step acc g clip f s).params =
        f s.params (applyClip clip (s.grad + g)) ∧
      (train_batch step acc g clip f s).optimizerSteps = s.optimizerSteps + 1 ∧
      (train_batch step acc g clip f s).grad = 0) := by
  unfold train_batch
  by_cases h : step % acc = 0 <;> simp [h]

/-- C2 witness: with accumulation 2, step 1 leaves the parameters and the
optimizer untouched and keeps the accumulated gradient, while step 0
applies the optimizer and zeroes the gradient; schedulers advance in both. -/
theorem C2_scheduler_optimizer_asymmetry_witness :
    (train_batch 1 2 5 none (fun p gr => p + gr) ⟨0, 3, 0, 0, 0⟩).params = 0 ∧
    (train_batch 1 2 5 none (fun p gr => p + gr) ⟨0, 3, 0, 0, 0⟩).grad = 3 + 5 ∧
    (train_batch 1 2 5 none (fun p gr => p + gr) ⟨0, 3, 0, 0, 0⟩).lrSchedulerSteps = 1 ∧
    (train_batch 0 2 5 none (fun p gr => p + gr) ⟨0, 3, 0, 0, 0⟩).grad = 0 := by
  refine ⟨?_, ?_, ?_, ?_⟩
  · exact ((C2_scheduler_optimizer_asymmetry 1 2 5 none (fun p gr => p + gr)
      ⟨0, 3, 0, 0, 0⟩).2.2.1 (by decide)).1
  · exact ((C2_scheduler_optimizer_asymmetry 1 2 5 none (fun p gr => p + gr)
      ⟨0, 3, 0, 0, 0⟩).2.2.1 (by decide)).2.2
  · exact (C2_scheduler_optimizer_asymmetry 1 2 5 none (fun p gr => p + gr)
      ⟨0, 3, 0, 0, 0⟩).1
  · exact ((C2_scheduler_optimizer_asymmetry 0 2 5 none (fun p gr => p + gr)
      ⟨0, 3, 0, 0, 0⟩).2.2.2 (by decide)).2.2

/-- C10: the training loop's step counter starts at zero and `train_batch`
sees it before the increment, so the optimizer fires on batch `m` exactly
when `m % accumulation_steps = 0`; in particular it fires on the very first
batch (after which the gradient is zeroed), the first effective
accumulation window contains exactly one batch, and every later window
contains `accumulation_steps` batches: after `j * accumulation_steps + 1`
batches the optimizer has stepped `j + 1` times. -/
theorem C10_first_batch_fires (acc : ℕ) (hacc : 0 < acc) (g : ℕ → ℚ)
    (clip : Option (ℚ → ℚ)) (f : ℚ → ℚ → ℚ) (s : TrainState) :
    (∀ m, (trainLoop acc g clip f s (m + 1)).optimizerSteps =
      (trainLoop acc g clip f s m).optimizerSteps + if m % acc = 0 then 1 else 0) ∧
    (trainLoop acc g clip f s 1).optimizerSteps = s.optimizerSteps + 1 ∧
    (trainLoop acc g clip f s 1).grad = 0 ∧
    (∀ j, (trainLoop acc g clip f s (j * acc + 1)).optimizerSteps =
      s.optimizerSteps + j + 1) := by
  refine ⟨fun m => trainLoop_optSteps_succ acc g clip f s m, ?_, ?_, fun j => ?_⟩
  · simp [trainLoop, train_batch_optSteps]
  · simp [trainLoop, train_batch]
  · rw [Nat.mul_comm]
    exact trainLoop_windows acc hacc g clip f s j

/-- C10 witness: with accumulation 2 and five batches, the optimizer steps
at batches 0, 2 and 4, hence three times in total, and once after the
very first batch. -/
theorem C10_first_batch_fires_witness :
    (trainLoop 2 (fun _ => 1) none (fun p gr => p + gr) ⟨0, 0, 0, 0, 0⟩ 5).optimizerSteps =
      (⟨0, 0, 0, 0, 0⟩ : TrainState).optimizerSteps + 2 + 1 ∧
    (trainLoop 2 (fun _ => 1) none (fun p gr => p + gr) ⟨0, 0, 0, 0, 0⟩ 1).optimizerSteps =
      (⟨0, 0, 0, 0, 0⟩ : TrainState).optimizerSteps + 1 := by
  refine ⟨?_, ?_⟩
  · exact (C10_first_batch_fires 2 (by decide) (fun _ => 1) none
      (fun p gr => p + gr) ⟨0, 0, 0, 0, 0⟩).2.2.2 2
  · exact (C10_first_batch_fires 2 (by decide) (fun _ => 1) none
      (fun p gr => p + gr) ⟨0, 0, 0, 0, 0⟩).2.1

/-- C8: for an example whose target labels are all the ignore value -100,
the per-example token-count denominator of the generative loss is clamped
to the `_EPSILON` floor and the per-example loss evaluates to the finite
value 0 rather than a division by zero. -/
theorem C8_all_ignored_clamped (ce : List ℚ → ℤ → ℚ) (lg : List (List ℚ))
    (lb : List ℤ) (h : ∀ x ∈ lb, x = -100) :
    n_tokens_clamped lb = _EPSILON ∧ genPerExample ce lg lb = 0 := by
  have hcount : lb.countP (fun x => x != -100) = 0 := by
    rw [List.countP_eq_zero]
    intro a ha
    simp [h a ha]
  constructor
  · rw [n_tokens_clamped, hcount]
    exact max_eq_right (by norm_num [_EPSILON])
  · rw [genPerExample, zipWith_tokenCE_ignored_sum ce lg lb h, zero_div]

/-- C8 witness: a concrete fully-ignored two-token example. -/
theorem C8_all_ignored_clamped_witness :
    n_tokens_clamped [-100, -100] = _EPSILON ∧
    genPerExample (fun _ _ => 7) [[1], [2]] [-100, -100] = 0 :=
  C8_all_ignored_clamped (fun _ _ => 7) [[1], [2]] [-100, -100] (by decide)

/-- C9 counterexample: an invalid loss-reduction mode is not raised at
construction.  The rationale-loss object is constructed with reduction
"foo" without any error, and the error is raised only when the loss is
computed on a batch, i.e. during a training step. -/
theorem C9_reduction_error_at_step_counterexample :
    make_loss "encoder_decoder" 5 1 1 1 =
      Except.ok (LossChoice.encoderDecoder 5 1 1 1) ∧
    EncoderDecoderRationaleLossS.call ⟨5, "foo"⟩ (fun _ _ => 0)
      ⟨[[[0]]], [[0]], [[0]]⟩ ⟨[[1]], [[1]], [[1]], [0], [false]⟩ none =
      Except.error "Invalid reduction. Supported values are none, mean and sum." :=
  ⟨rfl, rfl⟩

/-- C9 (amended): an invalid model type is raised eagerly at `make_loss`
construction; an invalid reduction mode is not validated at construction,
but any loss computation with it — already at `apply_reduction` — raises
the descriptive ValueError. -/
theorem C9_construction_vs_step_validation (mt red : String)
    (h1 : mt ≠ "encoder_decoder") (h2 : mt ≠ "encoder")
    (h3 : red ≠ "none") (h4 : red ≠ "mean") (h5 : red ≠ "sum")
    (maxLen w1 w2 w3 : ℚ) (bce : ℚ → ℚ → ℚ) (logits labels pmask : List (List ℚ))
    (mask : Option (List Bool)) (l : List ℚ) :
    make_loss mt maxLen w1 w2 w3 =
      Except.error "Invalid model_type. Supported values are encoder_decoder and encoder." ∧
    apply_reduction l red =
      Except.error "Invalid reduction. Supported values are none, mean and sum." ∧
    rationale_loss bce logits labels pmask maxLen red mask =
      Except.error "Invalid reduction. Supported values are none, mean and sum." := by
  refine ⟨?_, ?_, ?_⟩
  · simp [make_loss, h1, h2]
  · simp [apply_reduction, h3, h4, h5]
  · simp [rationale_loss, apply_reduction, h3, h4, h5]

/-- C9 witness: the concrete invalid model type "transformer" fails at
construction and the concrete invalid reduction "foo" fails at the first
loss computation. -/
theorem C9_construction_vs_step_validation_witness :
    make_loss "transformer" 5 1 1 1 =
      Except.error "Invalid model_type. Supported values are encoder_decoder and encoder." ∧
    apply_reduction [1, 2] "foo" =
      Except.error "Invalid reduction. Supported values are none, mean and sum." ∧
    rationale_loss (fun _ _ => 0) [[0]] [[1]] [[1]] 5 "foo" none =
      Except.error "Invalid reduction. Supported values are none, mean and sum." :=
  C9_construction_vs_step_validation "transformer" "foo" (by decide) (by decide)
    (by decide) (by decide) (by decide) 5 1 1 1 (fun _ _ => 0) [[0]] [[1]] [[1]]
    none [1, 2]

theorem except_ok_bind (a : α) (f : α → Except ε β) :
    (Except.ok a >>= f) = f a := rfl

theorem maskKeep_all_false (v : List Bool) (hv : ∀ b ∈ v, b = false)
    (xs : List α) : maskKeep v xs = [] := by
  unfold maskKeep
  have h : (xs.zip v).filter (fun p => p.2) = [] := by
    rw [List.filter_eq_nil_iff]
    intro p hp
    have hm := (List.of_mem_zip hp).2
    simp [hv _ hm]
  rw [h]
  rfl

theorem zipWith_and_replicate_false (v : List Bool) :
    ∀ (n : ℕ) b, b ∈ List.zipWith (fun a c => a && c) v (List.replicate n false) →
      b = false := by
  induction v with
  | nil => intro n b hb; simp at hb
  | cons a as ih =>
    intro n b hb
    cases n with
    | zero => simp at hb
    | succ m =>
      simp only [List.replicate, List.zipWith, List.mem_cons] at hb
      rcases hb with hb | hb
      · simp [hb]
      · exact ih m b hb

theorem zipWith3_nil_left (f : α → β → γ → δ) (bs : List β) (cs : List γ) :
    zipWith3 f [] bs cs = [] := by
  cases bs <;> cases cs <;> rfl

theorem ratLossVector_all_false_mask (bce : ℚ → ℚ → ℚ)
    (logits labels pmask : List (List ℚ)) (maxLen : ℚ) (n : ℕ) :
    ratLossVector bce logits labels pmask maxLen (some (List.replicate n false)) = [] := by
  simp only [ratLossVector, validFlags]
  rw [maskKeep_all_false _ (fun b hb => zipWith_and_replicate_false _ n b hb) logits]
  exact zipWith3_nil_left _ _ _

theorem genLossVector_all_false_mask (ce : List ℚ → ℤ → ℚ)
    (logits : List (List (List ℚ))) (labels : List (List ℤ)) (n : ℕ) :
    genLossVector ce logits labels (some (List.replicate n false)) = [] := by
  simp only [genLossVector, maskFilter]
  rw [maskKeep_all_false _ (fun b hb => List.eq_of_mem_replicate hb) logits]
  rfl

theorem rationale_loss_all_false_mask_mean (bce : ℚ → ℚ → ℚ)
    (logits labels pmask : List (List ℚ)) (maxLen : ℚ) (n : ℕ) :
    rationale_loss bce logits labels pmask maxLen "mean"
      (some (List.replicate n false)) = Except.ok [0] := by
  rw [rationale_loss, ratLossVector_all_false_mask, apply_reduction_mean_eq]
  norm_num [listMean]

theorem generative_loss_all_false_mask_mean (ce : List ℚ → ℤ → ℚ)
    (logits : List (List (List ℚ))) (labels : List (List ℤ)) (n : ℕ) :
    generative_loss ce logits labels "mean" (some (List.replicate n false)) =
      Except.ok [0] := by
  rw [generative_loss, genLossVector_all_false_mask, apply_reduction_mean_eq]
  norm_num [listMean]

/-- C1: the encoder-decoder composite loss is exactly the weighted sum
`w_c * classification + w_r * rationale + w_g * generative`, where the
classification loss is computed over the full batch unmasked, the rationale
and generative losses are restricted to the `NOT yes_no` generative mask,
and the returned log triple holds the three unweighted component values. -/
theorem C1_composite_weighted_sum (ceCls : List ℚ → ℤ → ℚ) (expQ : ℚ → ℚ)
    (bce : ℚ → ℚ → ℚ) (ceTok : List ℚ → ℤ → ℚ) (self : EncoderDecoderLoss)
    (outputs : Outputs) (targets : Targets) :
    self.forward ceCls expQ bce ceTok outputs targets =
      Except.ok
        (self.yng_loss_weight * meanScalar (yes_no_gen_loss ceCls expQ
            outputs.encoder_yng_logits targets.yng_label none "mean" none) +
          self.rationale_loss_weight * meanScalar (rationale_loss bce
            outputs.encoder_rationale_logits targets.rationale_labels
            targets.passage_mask self.max_rationale_length "mean"
            (some (targets.yes_no.map (fun b => !b)))) +
          self.generative_loss_weight * meanScalar (generative_loss ceTok
            outputs.logits targets.labels "mean"
            (some (targets.yes_no.map (fun b => !b)))),
         meanScalar (yes_no_gen_loss ceCls expQ outputs.encoder_yng_logits
           targets.yng_label none "mean" none),
         meanScalar (rationale_loss bce outputs.encoder_rationale_logits
           targets.rationale_labels targets.passage_mask
           self.max_rationale_length "mean"
           (some (targets.yes_no.map (fun b => !b)))),
         meanScalar (generative_loss ceTok outputs.logits targets.labels
           "mean" (some (targets.yes_no.map (fun b => !b))))) := by
  obtain ⟨y, hy⟩ : ∃ y, yes_no_gen_loss ceCls expQ outputs.encoder_yng_logits
      targets.yng_label none "mean" none = Except.ok [y] :=
    ⟨_, apply_reduction_mean_eq _⟩
  obtain ⟨r, hr⟩ : ∃ r, rationale_loss bce outputs.encoder_rationale_logits
      targets.rationale_labels targets.passage_mask self.max_rationale_length
      "mean" (some (targets.yes_no.map (fun b => !b))) = Except.ok [r] :=
    ⟨_, apply_reduction_mean_eq _⟩
  obtain ⟨g, hg⟩ : ∃ g, generative_loss ceTok outputs.logits targets.labels
      "mean" (some (targets.yes_no.map (fun b => !b))) = Except.ok [g] :=
    ⟨_, apply_reduction_mean_eq _⟩
  simp only [EncoderDecoderLoss.forward]
  rw [hy, hr, hg]
  rfl

/-- C5: in a batch where every example has `yes_no = True`, the generative
mask is all-false, the rationale and generative components reduce over an
empty selection to exactly zero, and the composite loss equals the
classification weight times the classification term alone. -/
theorem C5_all_yes_no_batch (ceCls : List ℚ → ℤ → ℚ) (expQ : ℚ → ℚ)
    (bce : ℚ → ℚ → ℚ) (ceTok : List ℚ → ℤ → ℚ) (self : EncoderDecoderLoss)
    (outputs : Outputs) (targets : Targets) (n : ℕ)
    (hyn : targets.yes_no = List.replicate n true) :
    self.forward ceCls expQ bce ceTok outputs targets =
      Except.ok
        (self.yng_loss_weight * meanScalar (yes_no_gen_loss ceCls expQ
            outputs.encoder_yng_logits targets.yng_label none "mean" none),
         meanScalar (yes_no_gen_loss ceCls expQ outputs.encoder_yng_logits
           targets.yng_label none "mean" none), 0, 0) := by
  obtain ⟨y, hy⟩ : ∃ y, yes_no_gen_loss ceCls expQ outputs.encoder_yng_logits
      targets.yng_label none "mean" none = Except.ok [y] :=
    ⟨_, apply_reduction_mean_eq _⟩
  simp only [EncoderDecoderLoss.forward, hyn, List.map_replicate, Bool.not_true]
  rw [hy, rationale_loss_all_false_mask_mean bce _ _ _ _ n,
    generative_loss_all_false_mask_mean ceTok _ _ n]
  simp [except_ok_bind, meanScalar, hy]

/-- C5 witness: a concrete two-example batch with both examples
`yes_no = True`. -/
theorem C5_all_yes_no_batch_witness :
    EncoderDecoderLoss.forward ⟨3, 2, 5, 7⟩ (fun _ _ => 1) (fun q => q)
      (fun _ _ => 1) (fun _ _ => 1)
      ⟨[[[0]], [[0]]], [[0], [0]], [[0], [0]]⟩
      ⟨[[1], [1]], [[1], [0]], [[1], [1]], [0, 1], [true, true]⟩ =
      Except.ok
        (2 * meanScalar (yes_no_gen_loss (fun _ _ => 1) (fun q => q)
            [[0], [0]] [0, 1] none "mean" none),
         meanScalar (yes_no_gen_loss (fun _ _ => 1) (fun q => q)
           [[0], [0]] [0, 1] none "mean" none), 0, 0) :=
  C5_all_yes_no_batch (fun _ _ => 1) (fun q => q) (fun _ _ => 1) (fun _ _ => 1)
    ⟨3, 2, 5, 7⟩ ⟨[[[0]], [[0]]], [[0], [0]], [[0], [0]]⟩
    ⟨[[1], [1]], [[1], [0]], [[1], [1]], [0, 1], [true, true]⟩ 2 rfl

theorem maskKeep_nil_mask (xs : List α) : maskKeep ([] : List Bool) xs = [] := by
  cases xs <;> rfl

theorem maskKeep_cons_true (v : List Bool) (x : α) (xs : List α) :
    maskKeep (true :: v) (x :: xs) = x :: maskKeep v xs := by
  simp [maskKeep]

theorem maskKeep_cons_false (v : List Bool) (x : α) (xs : List α) :
    maskKeep (false :: v) (x :: xs) = maskKeep v xs := by
  simp [maskKeep]

theorem maskKeep_zipWith (f : α → β → γ) (v : List Bool) :
    ∀ (xs : List α) (ys : List β), xs.length = ys.length →
      List.zipWith f (maskKeep v xs) (maskKeep v ys) =
        maskKeep v (List.zipWith f xs ys) := by
  induction v with
  | nil => intro xs ys _; simp [maskKeep_nil_mask]
  | cons b bs ih =>
    intro xs ys h
    cases xs with
    | nil =>
      cases ys with
      | nil => simp [maskKeep]
      | cons y yt => simp at h
    | cons x xt =>
      cases ys with
      | nil => simp at h
      | cons y yt =>
        have h' : xt.length = yt.length := by simpa using h
        cases b
        · rw [maskKeep_cons_false, maskKeep_cons_false, List.zipWith_cons_cons,
            maskKeep_cons_false]
          exact ih xt yt h'
        · rw [maskKeep_cons_true, maskKeep_cons_true, List.zipWith_cons_cons,
            List.zipWith_cons_cons, maskKeep_cons_true, ih xt yt h']

theorem maskFilter_zipWith (f : α → β → γ) (mask : Option (List Bool))
    (xs : List α) (ys : List β) (h : xs.length = ys.length) :
    List.zipWith f (maskFilter mask xs) (maskFilter mask ys) =
      maskFilter mask (List.zipWith f xs ys) := by
  cases mask with
  | none => rfl
  | some v => exact maskKeep_zipWith f v xs ys h

theorem genPerExample_pad (ce : List ℚ → ℤ → ℚ) (lg : List (List ℚ))
    (lb : List ℤ) (pad : List (List ℚ)) (m : ℕ) (hl : lg.length = lb.length) :
    genPerExample ce (lg ++ pad) (lb ++ List.replicate m (-100)) =
      genPerExample ce lg lb := by
  unfold genPerExample
  rw [List.zipWith_append _ _ _ _ _ hl, List.sum_append,
    zipWith_tokenCE_ignored_sum ce pad _ (fun x hx => List.eq_of_mem_replicate hx),
    add_zero]
  unfold n_tokens_clamped
  rw [List.countP_append]
  have hc : List.countP (fun x => x != -100) (List.replicate m (-100 : ℤ)) = 0 := by
    rw [List.countP_eq_zero]
    intro a ha
    simp [List.eq_of_mem_replicate ha]
  rw [hc, Nat.add_zero]

theorem genVector_pad (ce : List ℚ → ℤ → ℚ) :
    ∀ (logits : List (List (List ℚ))) (labels : List (List ℤ))
      (pads : List (List (List ℚ))) (lens : List ℕ),
      List.Forall₂ (fun (lg : List (List ℚ)) (lb : List ℤ) =>
        lg.length = lb.length) logits labels →
      List.Forall₂ (fun (p : List (List ℚ)) (n : ℕ) => p.length = n) pads lens →
      pads.length = logits.length →
      List.zipWith (genPerExample ce)
        (List.zipWith (fun lg p => lg ++ p) logits pads)
        (List.zipWith (fun lb n => lb ++ List.replicate n (-100)) labels lens) =
      List.zipWith (genPerExample ce) logits labels := by
  intro logits
  induction logits with
  | nil =>
    intro labels pads lens h1 _ _
    cases h1
    simp
  | cons lg lgs ih =>
    intro labels pads lens h1 h2 hpl
    cases h1 with
    | cons hhead htail =>
      cases pads with
      | nil => simp at hpl
      | cons p ps =>
        cases h2 with
        | cons hp hps =>
          simp only [List.zipWith]
          rw [genPerExample_pad ce lg _ p _ hhead,
            ih _ ps _ htail hps (by simpa using hpl)]

/-- C6: the generative loss is invariant to target-sequence padding length:
appending, per example, `lens i` ignore-valued (-100) label positions and
the same number of extra logit positions changes neither the per-example
loss vector nor any reduction of it — ignored positions contribute zero to
the summed loss and are excluded from the per-example token-count
denominator. -/
theorem C6_padding_invariance (ce : List ℚ → ℤ → ℚ) (reduction : String)
    (mask : Option (List Bool)) (logits : List (List (List ℚ)))
    (labels : List (List ℤ)) (pads : List (List (List ℚ))) (lens : List ℕ)
    (h1 : List.Forall₂ (fun (lg : List (List ℚ)) (lb : List ℤ) =>
      lg.length = lb.length) logits labels)
    (h2 : List.Forall₂ (fun (p : List (List ℚ)) (n : ℕ) => p.length = n) pads lens)
    (hpl : pads.length = logits.length) (hll : lens.length = labels.length) :
    generative_loss ce (List.zipWith (fun lg p => lg ++ p) logits pads)
      (List.zipWith (fun lb n => lb ++ List.replicate n (-100)) labels lens)
      reduction mask =
    generative_loss ce logits labels reduction mask := by
  unfold generative_loss genLossVector
  have hx : (List.zipWith (fun lg p => lg ++ p) logits pads).length =
      (List.zipWith (fun lb n => lb ++ List.replicate n (-100 : ℤ)) labels lens).length := by
    rw [List.length_zipWith, List.length_zipWith, hpl, hll, h1.length_eq]
  have hy : logits.length = labels.length := h1.length_eq
  rw [maskFilter_zipWith _ mask _ _ hx, maskFilter_zipWith _ mask _ _ hy,
    genVector_pad ce logits labels pads lens h1 h2 hpl]

/-- C6 witness: one real token plus two appended ignore positions give the
same loss as the unpadded example. -/
theorem C6_padding_invariance_witness :
    generative_loss (fun _ _ => 3)
      (List.zipWith (fun lg p => lg ++ p) [[[0], [1]]] [[[2], [2]]])
      (List.zipWith (fun lb n => lb ++ List.replicate n (-100)) [[4, 5]] [2])
      "mean" none =
    generative_loss (fun _ _ => 3) [[[0], [1]]] [[4, 5]] "mean" none :=
  C6_padding_invariance (fun _ _ => 3) "mean" none [[[0], [1]]] [[4, 5]]
    [[[2], [2]]] [2] (List.Forall₂.cons rfl List.Forall₂.nil)
    (List.Forall₂.cons rfl List.Forall₂.nil) rfl rfl

theorem binary_sum_natval : ∀ (l : List ℚ), (∀ x ∈ l, x = 0 ∨ x = 1) →
    ∃ m : ℕ, l.sum = (m : ℚ) := by
  intro l
  induction l with
  | nil => exact fun _ => ⟨0, by simp⟩
  | cons a t ih =>
    intro h
    obtain ⟨m, hm⟩ := ih (fun x hx => h x (by simp [hx]))
    rcases h a (by simp) with ha | ha
    · exact ⟨m, by simp [ha, hm]⟩
    · exact ⟨m + 1, by push_cast; simp [ha, hm]; ring⟩

theorem zipWith_mul_binary : ∀ (l p : List ℚ), (∀ x ∈ l, x = 0 ∨ x = 1) →
    (∀ x ∈ p, x = 0 ∨ x = 1) →
    ∀ x ∈ List.zipWith (fun a b => a * b) l p, x = 0 ∨ x = 1 := by
  intro l
  induction l with
  | nil => intro p _ _ x hx; simp at hx
  | cons a t ih =>
    intro p hl hp x hx
    cases p with
    | nil => simp at hx
    | cons b tb =>
      rw [List.zipWith_cons_cons, List.mem_cons] at hx
      rcases hx with hx | hx
      · rcases hl a (by simp) with ha | ha <;> rcases hp b (by simp) with hb | hb <;>
          simp [hx, ha, hb]
      · exact ih tb (fun y hy => hl y (by simp [hy])) (fun y hy => hp y (by simp [hy])) x hx

theorem zipWith_mul_sub : ∀ (l p : List ℚ), l.length = p.length →
    (∀ x ∈ p, x = 0 ∨ x = 1) →
    List.Forall₂ (fun lb pp => lb = 1 → pp = 1) (List.zipWith (fun a b => a * b) l p) p := by
  intro l
  induction l with
  | nil =>
    intro p hlen _
    cases p with
    | nil => exact List.Forall₂.nil
    | cons b tb => simp at hlen
  | cons a t ih =>
    intro p hlen hp
    cases p with
    | nil => simp at hlen
    | cons b tb =>
      rw [List.zipWith_cons_cons]
      refine List.Forall₂.cons ?_
        (ih tb (by simpa using hlen) (fun y hy => hp y (by simp [hy])))
      intro hab
      rcases hp b (by simp) with hb | hb
      · rw [hb, mul_zero] at hab; exact absurd hab (by norm_num)
      · exact hb

theorem forall2_le_of_binary : ∀ (l p : List ℚ), l.length = p.length →
    (∀ x ∈ l, x = 0 ∨ x = 1) → (∀ x ∈ p, x = 0 ∨ x = 1) →
    List.Forall₂ (fun a b => a ≤ b) (List.zipWith (fun a b => a * b) l p) p := by
  intro l
  induction l with
  | nil =>
    intro p hlen _ _
    cases p with
    | nil => exact List.Forall₂.nil
    | cons b tb => simp at hlen
  | cons a t ih =>
    intro p hlen hl hp
    cases p with
    | nil => simp at hlen
    | cons b tb =>
      rw [List.zipWith_cons_cons]
      refine List.Forall₂.cons ?_
        (ih tb (by simpa using hlen) (fun y hy => hl y (by simp [hy]))
          (fun y hy => hp y (by simp [hy])))
      rcases hl a (by simp) with ha | ha <;> rcases hp b (by simp) with hb | hb <;>
        simp [ha, hb]

theorem forall2_sum_le : ∀ {l p : List ℚ},
    List.Forall₂ (fun a b => a ≤ b) l p → l.sum ≤ p.sum := by
  intro l p h
  induction h with
  | nil => simp
  | cons hab htail ih => simpa using add_le_add hab ih

theorem zipWith_diag_left (f : α → γ → δ) (h : α → β → γ) :
    ∀ (l1 : List α) (l2 : List β),
      List.zipWith f l1 (List.zipWith h l1 l2) =
        List.zipWith (fun a b => f a (h a b)) l1 l2 := by
  intro l1
  induction l1 with
  | nil => intro l2; rfl
  | cons a t ih =>
    intro l2
    cases l2 with
    | nil => rfl
    | cons b tb =>
      simp only [List.zipWith_cons_cons]
      rw [ih]

theorem zipWith3_diag (f : β → α → γ → δ) (h : α → β → γ) :
    ∀ (l1 : List α) (l2 : List β),
      zipWith3 f l2 l1 (List.zipWith h l1 l2) =
        List.zipWith (fun a b => f b a (h a b)) l1 l2 := by
  intro l1
  induction l1 with
  | nil => intro l2; cases l2 <;> rfl
  | cons a t ih =>
    intro l2
    cases l2 with
    | nil => rfl
    | cons b tb =>
      simp only [List.zipWith_cons_cons]
      show f b a (h a b) :: zipWith3 f tb t (List.zipWith h t tb) = _
      rw [ih]

theorem zipWith_weight_sum (c d : ℚ) :
    ∀ (ml pmask : List ℚ), (∀ x ∈ ml, x = 0 ∨ x = 1) →
      List.Forall₂ (fun lb p => lb = 1 → p = 1) ml pmask →
      (List.zipWith (fun lb p => (if lb = 1 then c else d) * p) ml pmask).sum =
        c * ml.sum + d * (pmask.sum - ml.sum) := by
  intro ml
  induction ml with
  | nil =>
    intro pmask _ h
    cases h
    simp
  | cons a t ih =>
    intro pmask hb h
    cases h with
    | cons hab htail =>
      rw [List.zipWith_cons_cons, List.sum_cons, List.sum_cons, List.sum_cons,
        ih _ (fun x hx => hb x (by simp [hx])) htail]
      rcases hb a (by simp) with ha | ha
      · subst ha; norm_num; ring
      · subst ha
        rw [hab rfl]
        norm_num
        ring

theorem selPosSum (c d nf : ℚ) :
    ∀ (ml pmask : List ℚ), (∀ x ∈ ml, x = 0 ∨ x = 1) →
      List.Forall₂ (fun lb p => lb = 1 → p = 1) ml pmask →
      (List.zipWith (fun lb p =>
        if lb = 1 then ((if lb = 1 then c else d) * p) / nf else 0) ml pmask).sum =
        c / nf * ml.sum := by
  intro ml
  induction ml with
  | nil =>
    intro pmask _ h
    cases h
    simp
  | cons a t ih =>
    intro pmask hb h
    cases h with
    | cons hab htail =>
      rw [List.zipWith_cons_cons, List.sum_cons, List.sum_cons,
        ih _ (fun x hx => hb x (by simp [hx])) htail]
      rcases hb a (by simp) with ha | ha
      · subst ha; norm_num
      · subst ha
        rw [hab rfl]
        norm_num
        ring

theorem selNegSum (c d nf : ℚ) :
    ∀ (ml pmask : List ℚ), (∀ x ∈ ml, x = 0 ∨ x = 1) →
      (∀ x ∈ pmask, x = 0 ∨ x = 1) →
      List.Forall₂ (fun lb p => lb = 1 → p = 1) ml pmask →
      (List.zipWith (fun lb p =>
        if p = 1 ∧ lb = 0 then ((if lb = 1 then c else d) * p) / nf else 0)
          ml pmask).sum =
        d / nf * (pmask.sum - ml.sum) := by
  intro ml
  induction ml with
  | nil =>
    intro pmask _ _ h
    cases h
    simp
  | cons a t ih =>
    intro pmask hbl hbp h
    cases h with
    | cons hab htail =>
      rename_i b tb
      rw [List.zipWith_cons_cons, List.sum_cons, List.sum_cons, List.sum_cons,
        ih _ (fun x hx => hbl x (by simp [hx])) (fun x hx => hbp x (by simp [hx]))
          htail]
      rcases hbl a (by simp) with ha | ha
      · subst ha
        rcases hbp b (by simp) with hb | hb
        · rw [hb]; norm_num
        · rw [hb]; norm_num; try ring
      · subst ha
        rw [hab rfl]
        norm_num
        try ring

/-- C3: in the rationale-loss weighting, for an example with k positive and
n-k negative passage tokens (k > 0 and n-k > 0), after the per-class
totals/count weighting, the zeroing outside the passage mask and the
normalization of the example weight vector, the weights of the positive
passage tokens sum to exactly 1/2 and the weights of the negative passage
tokens sum to exactly 1/2. -/
theorem C3_pos_neg_weights_half (labels pmask : List ℚ)
    (hlen : labels.length = pmask.length)
    (hbl : ∀ x ∈ labels, x = 0 ∨ x = 1)
    (hbp : ∀ x ∈ pmask, x = 0 ∨ x = 1)
    (hk : 0 < (List.zipWith (fun a b => a * b) labels pmask).sum)
    (hkn : (List.zipWith (fun a b => a * b) labels pmask).sum < pmask.sum) :
    (List.zipWith (fun lb w => if lb = 1 then w else 0)
        (List.zipWith (fun a b => a * b) labels pmask)
        (exampleWeights (List.zipWith (fun a b => a * b) labels pmask) pmask)).sum
      = 1 / 2 ∧
    (zipWith3 (fun p lb w => if p = 1 ∧ lb = 0 then w else 0) pmask
        (List.zipWith (fun a b => a * b) labels pmask)
        (exampleWeights (List.zipWith (fun a b => a * b) labels pmask) pmask)).sum
      = 1 / 2 := by
  set ml := List.zipWith (fun a b => a * b) labels pmask with hml
  have hbml : ∀ x ∈ ml, x = 0 ∨ x = 1 := zipWith_mul_binary labels pmask hbl hbp
  have hsub : List.Forall₂ (fun lb p => lb = 1 → p = 1) ml pmask :=
    zipWith_mul_sub labels pmask hlen hbp
  have hk' : ml.sum ≠ 0 := ne_of_gt hk
  have hnkpos : 0 < pmask.sum - ml.sum := sub_pos.mpr hkn
  have hnk : pmask.sum - ml.sum ≠ 0 := ne_of_gt hnkpos
  have hn0 : 0 < pmask.sum := lt_trans hk hkn
  obtain ⟨nn, hnn⟩ := binary_sum_natval pmask hbp
  have hnnpos : 0 < nn := by
    have h0 : (0:ℚ) < (nn:ℚ) := hnn ▸ hn0
    exact_mod_cast h0
  have h1n : (1:ℚ) ≤ pmask.sum := by
    rw [hnn]
    exact_mod_cast hnnpos
  have heps : _EPSILON ≤ (1:ℚ) := by norm_num [_EPSILON]
  have htc : max pmask.sum _EPSILON = pmask.sum := max_eq_left (le_trans heps h1n)
  have hw1 : (exampleRawWeights ml pmask).map FVal.toZero =
      ml.map (fun lb => if lb = 1 then pmask.sum / ml.sum
        else pmask.sum / (pmask.sum - ml.sum)) := by
    unfold exampleRawWeights
    rw [List.map_map]
    refine List.map_congr_left ?_
    intro lb _
    by_cases hlb : lb = 1
    · simp [Function.comp, hlb, htc, divF, hk', FVal.toZero]
    · simp [Function.comp, hlb, htc, divF, hnk, FVal.toZero]
  have hw2 : List.zipWith (fun w p => w * p)
      (ml.map (fun lb => if lb = 1 then pmask.sum / ml.sum
        else pmask.sum / (pmask.sum - ml.sum))) pmask =
      List.zipWith (fun lb p => (if lb = 1 then pmask.sum / ml.sum
        else pmask.sum / (pmask.sum - ml.sum)) * p) ml pmask := by
    rw [List.zipWith_map_left]
  have hL1 : (List.zipWith (fun lb p => (if lb = 1 then pmask.sum / ml.sum
      else pmask.sum / (pmask.sum - ml.sum)) * p) ml pmask).sum =
      pmask.sum / ml.sum * ml.sum +
        pmask.sum / (pmask.sum - ml.sum) * (pmask.sum - ml.sum) :=
    zipWith_weight_sum _ _ ml pmask hbml hsub
  have hsum2 : pmask.sum / ml.sum * ml.sum +
      pmask.sum / (pmask.sum - ml.sum) * (pmask.sum - ml.sum) = 2 * pmask.sum := by
    rw [div_mul_cancel₀ _ hk', div_mul_cancel₀ _ hnk]
    ring
  have hnf : max (2 * pmask.sum) _EPSILON = 2 * pmask.sum :=
    max_eq_left (le_trans (le_trans heps h1n) (by linarith))
  have hW : exampleWeights ml pmask =
      List.zipWith (fun lb p => ((if lb = 1 then pmask.sum / ml.sum
        else pmask.sum / (pmask.sum - ml.sum)) * p) / (2 * pmask.sum)) ml pmask := by
    simp only [exampleWeights]
    rw [hw1, hw2, hL1, hsum2, hnf, List.map_zipWith]
  constructor
  · rw [hW, zipWith_diag_left]
    show (List.zipWith (fun lb p => if lb = 1 then
        ((if lb = 1 then pmask.sum / ml.sum else pmask.sum / (pmask.sum - ml.sum))
          * p) / (2 * pmask.sum) else 0) ml pmask).sum = 1 / 2
    rw [selPosSum _ _ _ ml pmask hbml hsub]
    field_simp
    ring
  · rw [hW, zipWith3_diag]
    show (List.zipWith (fun lb p => if p = 1 ∧ lb = 0 then
        ((if lb = 1 then pmask.sum / ml.sum else pmask.sum / (pmask.sum - ml.sum))
          * p) / (2 * pmask.sum) else 0) ml pmask).sum = 1 / 2
    rw [selNegSum _ _ _ ml pmask hbml hbp hsub]
    field_simp
    ring

/-- C3 witness: a 2-of-6 positive rationale over a six-token passage. -/
theorem C3_pos_neg_weights_half_witness :
    (List.zipWith (fun lb w => if lb = 1 then w else 0)
        (List.zipWith (fun a b => a * b) ([1, 1, 0, 0, 0, 0] : List ℚ)
          ([1, 1, 1, 1, 1, 1] : List ℚ))
        (exampleWeights (List.zipWith (fun a b => a * b)
          ([1, 1, 0, 0, 0, 0] : List ℚ) ([1, 1, 1, 1, 1, 1] : List ℚ))
          ([1, 1, 1, 1, 1, 1] : List ℚ))).sum = 1 / 2 ∧
    (zipWith3 (fun p lb w => if p = 1 ∧ lb = 0 then w else 0)
        (([1, 1, 1, 1, 1, 1] : List ℚ))
        (List.zipWith (fun a b => a * b) ([1, 1, 0, 0, 0, 0] : List ℚ)
          ([1, 1, 1, 1, 1, 1] : List ℚ))
        (exampleWeights (List.zipWith (fun a b => a * b)
          ([1, 1, 0, 0, 0, 0] : List ℚ) ([1, 1, 1, 1, 1, 1] : List ℚ))
          ([1, 1, 1, 1, 1, 1] : List ℚ))).sum = 1 / 2 :=
  C3_pos_neg_weights_half [1, 1, 0, 0, 0, 0] [1, 1, 1, 1, 1, 1] (by decide)
    (by simp [List.forall_mem_cons]) (by simp [List.forall_mem_cons])
    (by norm_num [List.zipWith]) (by norm_num [List.zipWith])

theorem forall2_raw_final (f : ℚ → FVal) (nf : ℚ) :
    ∀ (labels pmask : List ℚ), labels.length = pmask.length →
      List.Forall₂ (fun r w => r = FVal.inf → w = 0) (labels.map f)
        ((List.zipWith (fun w p => w * p) ((labels.map f).map FVal.toZero)
          pmask).map (fun w => w / nf)) := by
  intro labels
  induction labels with
  | nil =>
    intro pmask hlen
    cases pmask with
    | nil => exact List.Forall₂.nil
    | cons b tb => simp at hlen
  | cons a t ih =>
    intro pmask hlen
    cases pmask with
    | nil => simp at hlen
    | cons b tb =>
      simp only [List.map_cons, List.zipWith_cons_cons]
      refine List.Forall₂.cons ?_ (ih tb (by simpa using hlen))
      intro hinf
      rw [hinf]
      show FVal.inf.toZero * b / nf = 0
      rw [show FVal.inf.toZero = 0 from rfl, zero_mul, zero_div]

theorem binary_sum_zero : ∀ (l : List ℚ), (∀ x ∈ l, x = 0 ∨ x = 1) →
    l.sum = 0 → ∀ x ∈ l, x = 0 := by
  intro l
  induction l with
  | nil => intro _ _ x hx; simp at hx
  | cons a t ih =>
    intro hb hs x hx
    have hts : 0 ≤ t.sum := List.sum_nonneg (fun y hy => by
      rcases hb y (by simp [hy]) with h | h <;> simp [h])
    have ha0 : 0 ≤ a := by rcases hb a (by simp) with h | h <;> simp [h]
    rw [List.sum_cons] at hs
    rcases List.mem_cons.mp hx with hx | hx
    · subst hx; linarith
    · exact ih (fun y hy => hb y (by simp [hy])) (by linarith) x hx

theorem zipWith_pos_sel_zero : ∀ (labels W : List ℚ), (∀ x ∈ labels, x = 0) →
    (List.zipWith (fun lb w => if lb = 1 then w else 0) labels W).sum = 0 := by
  intro labels
  induction labels with
  | nil => intro W _; simp
  | cons a t ih =>
    intro W h
    cases W with
    | nil => simp
    | cons w tw =>
      rw [List.zipWith_cons_cons, List.sum_cons, ih tw (fun y hy => h y (by simp [hy])),
        h a (by simp)]
      norm_num

theorem forall2_le_direct : ∀ (l p : List ℚ), (∀ x ∈ l, x = 0 ∨ x = 1) →
    (∀ x ∈ p, x = 0 ∨ x = 1) →
    List.Forall₂ (fun lb pp => lb = 1 → pp = 1) l p →
    List.Forall₂ (fun a b => a ≤ b) l p := by
  intro l
  induction l with
  | nil => intro p _ _ h; cases h; exact List.Forall₂.nil
  | cons a t ih =>
    intro p hl hp h
    cases h with
    | cons hab htail =>
      rename_i b tb
      refine List.Forall₂.cons ?_ (ih tb (fun x hx => hl x (by simp [hx]))
        (fun x hx => hp x (by simp [hx])) htail)
      rcases hl a (by simp) with ha | ha
      · rcases hp b (by simp) with hb | hb <;> simp [ha, hb]
      · simp [ha, hab ha]

theorem zipWith3_neg_sel_zero : ∀ (labels pmask W : List ℚ),
    (∀ x ∈ labels, x = 0 ∨ x = 1) → (∀ x ∈ pmask, x = 0 ∨ x = 1) →
    List.Forall₂ (fun lb p => lb = 1 → p = 1) labels pmask →
    pmask.sum - labels.sum = 0 →
    (zipWith3 (fun p lb w => if p = 1 ∧ lb = 0 then w else 0) pmask labels W).sum
      = 0 := by
  intro labels
  induction labels with
  | nil =>
    intro pmask W _ _ h _
    cases h
    simp [zipWith3]
  | cons a t ih =>
    intro pmask W hl hp h hdiff
    cases h with
    | cons hab htail =>
      rename_i b tb
      rw [List.sum_cons, List.sum_cons] at hdiff
      cases W with
      | nil => simp [zipWith3]
      | cons w tw =>
        show ((if b = 1 ∧ a = 0 then w else 0) ::
          zipWith3 (fun p lb w => if p = 1 ∧ lb = 0 then w else 0) tb t tw).sum = 0
        rw [List.sum_cons]
        rcases hl a (by simp) with ha | ha
        · rcases hp b (by simp) with hb | hb
          · rw [ha, hb]
            norm_num
            exact ih tb tw (fun x hx => hl x (by simp [hx]))
              (fun x hx => hp x (by simp [hx])) htail (by linarith)
          · exfalso
            have hle : t.sum ≤ tb.sum := forall2_sum_le
              (forall2_le_direct t tb (fun x hx => hl x (by simp [hx]))
                (fun x hx => hp x (by simp [hx])) htail)
            rw [ha, hb] at hdiff
            linarith
        · have hb1 : b = 1 := hab ha
          rw [ha, hb1]
          norm_num
          exact ih tb tw (fun x hx => hl x (by simp [hx]))
            (fun x hx => hp x (by simp [hx])) htail (by linarith)

/-- C7: weights that would be infinite because a class count is zero are
rewritten to zero: every infinite raw weight position carries final weight
0, so the final weight vector is a vector of finite rationals; and a class
absent from the example (no positives, or no in-passage negatives)
contributes no weight mass. -/
theorem C7_no_inf_weights (labels pmask : List ℚ)
    (hlen : labels.length = pmask.length)
    (hbl : ∀ x ∈ labels, x = 0 ∨ x = 1)
    (hbp : ∀ x ∈ pmask, x = 0 ∨ x = 1)
    (hsub : List.Forall₂ (fun lb p => lb = 1 → p = 1) labels pmask) :
    List.Forall₂ (fun r w => r = FVal.inf → w = 0)
      (exampleRawWeights labels pmask) (exampleWeights labels pmask) ∧
    (labels.sum = 0 →
      (List.zipWith (fun lb w => if lb = 1 then w else 0) labels
        (exampleWeights labels pmask)).sum = 0) ∧
    (pmask.sum - labels.sum = 0 →
      (zipWith3 (fun p lb w => if p = 1 ∧ lb = 0 then w else 0) pmask labels
        (exampleWeights labels pmask)).sum = 0) := by
  refine ⟨?_, ?_, ?_⟩
  · simp only [exampleWeights, exampleRawWeights]
    exact forall2_raw_final _ _ labels pmask hlen
  · intro h0
    exact zipWith_pos_sel_zero labels _ (binary_sum_zero labels hbl h0)
  · intro hneg
    exact zipWith3_neg_sel_zero labels pmask _ hbl hbp hsub hneg

/-- C7 witness: all in-passage tokens positive and one out-of-passage
position, so the negative class count is zero and its raw weight is
infinite. -/
theorem C7_no_inf_weights_witness :
    List.Forall₂ (fun r w => r = FVal.inf → w = 0)
      (exampleRawWeights ([1, 1, 0] : List ℚ) ([1, 1, 0] : List ℚ))
      (exampleWeights ([1, 1, 0] : List ℚ) ([1, 1, 0] : List ℚ)) ∧
    (([1, 1, 0] : List ℚ).sum = 0 →
      (List.zipWith (fun lb w => if lb = 1 then w else 0) ([1, 1, 0] : List ℚ)
        (exampleWeights ([1, 1, 0] : List ℚ) ([1, 1, 0] : List ℚ))).sum = 0) ∧
    (([1, 1, 0] : List ℚ).sum - ([1, 1, 0] : List ℚ).sum = 0 →
      (zipWith3 (fun p lb w => if p = 1 ∧ lb = 0 then w else 0)
        ([1, 1, 0] : List ℚ) ([1, 1, 0] : List ℚ)
        (exampleWeights ([1, 1, 0] : List ℚ) ([1, 1, 0] : List ℚ))).sum = 0) :=
  C7_no_inf_weights [1, 1, 0] [1, 1, 0] (by decide)
    (by simp [List.forall_mem_cons]) (by simp [List.forall_mem_cons])
    (by norm_num [List.forall₂_cons])

theorem maskKeep_append (v1 v2 : List Bool) (x1 x2 : List α)
    (h : v1.length = x1.length) :
    maskKeep (v1 ++ v2) (x1 ++ x2) = maskKeep v1 x1 ++ maskKeep v2 x2 := by
  unfold maskKeep
  rw [List.zip_append h.symm, List.filter_append, List.map_append]

theorem maskKeep_length (v : List Bool) :
    ∀ (xs : List α), v.length = xs.length →
      (maskKeep v xs).length = v.count true := by
  induction v with
  | nil => intro xs _; simp [maskKeep]
  | cons b bs ih =>
    intro xs h
    cases xs with
    | nil => simp at h
    | cons x xt =>
      have h' : bs.length = xt.length := by simpa using h
      cases b
      · rw [maskKeep_cons_false, ih xt h']
        simp
      · rw [maskKeep_cons_true]
        simp [ih xt h']

theorem zipWith3_length (f : α → β → γ → δ) :
    ∀ (a : List α) (b : List β) (c : List γ),
      (zipWith3 f a b c).length = min a.length (min b.length c.length) := by
  intro a
  induction a with
  | nil => intro b c; cases b <;> cases c <;> simp [zipWith3]
  | cons x xt ih =>
    intro b c
    cases b with
    | nil => simp [zipWith3]
    | cons y yt =>
      cases c with
      | nil => simp [zipWith3]
      | cons z zt =>
        show (f x y z :: zipWith3 f xt yt zt).length = _
        simp [ih yt zt]
        omega

theorem validFlags_decomp (L1 L2 : List (List ℚ)) (lA : List ℚ)
    (P1 P2 : List (List ℚ)) (pm : List ℚ) (maxLen : ℚ)
    (hL1 : L1.length = P1.length) :
    validFlags (L1 ++ lA :: L2) (P1 ++ pm :: P2) maxLen none =
      ((List.zipWith (List.zipWith (fun a b => a * b)) L1 P1).map List.sum).map
        (fun le => decide (le ≤ maxLen)) ++
      decide ((List.zipWith (fun a b => a * b) lA pm).sum ≤ maxLen) ::
      ((List.zipWith (List.zipWith (fun a b => a * b)) L2 P2).map List.sum).map
        (fun le => decide (le ≤ maxLen)) := by
  simp only [validFlags]
  rw [List.zipWith_append _ _ _ _ _ hL1, List.zipWith_cons_cons, List.map_append,
    List.map_cons, List.map_append, List.map_cons]

theorem validFlags_decomp_some (L1 L2 : List (List ℚ)) (lA : List ℚ)
    (P1 P2 : List (List ℚ)) (pm : List ℚ) (maxLen : ℚ)
    (M1 M2 : List Bool) (mj : Bool)
    (hL1 : L1.length = P1.length) (hM1 : M1.length = P1.length) :
    validFlags (L1 ++ lA :: L2) (P1 ++ pm :: P2) maxLen
        (some (M1 ++ mj :: M2)) =
      List.zipWith (fun a b => a && b)
        (((List.zipWith (List.zipWith (fun a b => a * b)) L1 P1).map List.sum).map
          (fun le => decide (le ≤ maxLen))) M1 ++
      (decide ((List.zipWith (fun a b => a * b) lA pm).sum ≤ maxLen) && mj) ::
      List.zipWith (fun a b => a && b)
        (((List.zipWith (List.zipWith (fun a b => a * b)) L2 P2).map List.sum).map
          (fun le => decide (le ≤ maxLen))) M2 := by
  simp only [validFlags]
  rw [List.zipWith_append _ _ _ _ _ hL1, List.zipWith_cons_cons, List.map_append,
    List.map_cons, List.map_append, List.map_cons,
    List.zipWith_append _ _ _ _ _ (by
      simp [List.length_zipWith, hL1, hM1]), List.zipWith_cons_cons]

theorem ratLossVector_congr (bce : ℚ → ℚ → ℚ)
    (G1 G2 : List (List ℚ)) (gA gB : List ℚ)
    (L1 L2 : List (List ℚ)) (lA lB : List ℚ)
    (P1 P2 : List (List ℚ)) (pm : List ℚ) (maxLen : ℚ)
    (mask : Option (List Bool)) (W1 W2 : List Bool)
    (hWA : validFlags (L1 ++ lA :: L2) (P1 ++ pm :: P2) maxLen mask =
      W1 ++ false :: W2)
    (hWB : validFlags (L1 ++ lB :: L2) (P1 ++ pm :: P2) maxLen mask =
      W1 ++ false :: W2)
    (hL1 : L1.length = P1.length)
    (hW1L : W1.length = L1.length) (hW1G : W1.length = G1.length) :
    ratLossVector bce (G1 ++ gA :: G2) (L1 ++ lA :: L2) (P1 ++ pm :: P2)
      maxLen mask =
    ratLossVector bce (G1 ++ gB :: G2) (L1 ++ lB :: L2) (P1 ++ pm :: P2)
      maxLen mask := by
  have hml : ∀ (l : List ℚ),
      List.zipWith (List.zipWith (fun a b => a * b)) (L1 ++ l :: L2)
        (P1 ++ pm :: P2) =
      List.zipWith (List.zipWith (fun a b => a * b)) L1 P1 ++
        List.zipWith (fun a b => a * b) l pm ::
        List.zipWith (List.zipWith (fun a b => a * b)) L2 P2 := by
    intro l
    rw [List.zipWith_append _ _ _ _ _ hL1, List.zipWith_cons_cons]
  have hW1ml : W1.length =
      (List.zipWith (List.zipWith (fun a b => a * b)) L1 P1).length := by
    rw [List.length_zipWith, ← hL1, min_self, hW1L]
  have hW1P : W1.length = P1.length := by rw [hW1L, hL1]
  simp only [ratLossVector]
  rw [hWA, hWB, hml lA, hml lB]
  rw [maskKeep_append _ _ _ _ hW1ml, maskKeep_append _ _ _ _ hW1ml,
    maskKeep_append _ _ _ _ hW1P,
    maskKeep_append _ _ _ _ hW1G, maskKeep_append _ _ _ _ hW1G]
  simp only [maskKeep_cons_false]

theorem ratLossVector_length (bce : ℚ → ℚ → ℚ)
    (logits labels pmask : List (List ℚ)) (maxLen : ℚ)
    (mask : Option (List Bool))
    (h1 : (validFlags labels pmask maxLen mask).length = labels.length)
    (h2 : labels.length = pmask.length) (h3 : labels.length = logits.length) :
    (ratLossVector bce logits labels pmask maxLen mask).length =
      (validFlags labels pmask maxLen mask).count true := by
  simp only [ratLossVector]
  rw [zipWith3_length, List.length_zipWith]
  rw [maskKeep_length _ _ (by rw [h1, h3]),
    maskKeep_length _ _ (by
      rw [h1, List.length_zipWith, ← h2, min_self]),
    maskKeep_length _ _ (by rw [h1, h2])]
  simp

/-- C4: an example excluded from the rationale loss — because its in-passage
rationale length exceeds the threshold (in both the original and the
modified batch), or because the optional example mask carries false at its
position — is fully inert: replacing its labels and logits does not change
the returned loss for any reduction, and the per-example loss vector that
the mean reduction averages has exactly one entry per valid example, so
the excluded example does not enter the denominator even as a zero. -/
theorem C4_excluded_example_inert (bce : ℚ → ℚ → ℚ)
    (G1 G2 : List (List ℚ)) (gA gB : List ℚ)
    (L1 L2 : List (List ℚ)) (lA lB : List ℚ)
    (P1 P2 : List (List ℚ)) (pm : List ℚ) (maxLen : ℚ)
    (mask : Option (List Bool))
    (hL1 : L1.length = P1.length) (hG1 : G1.length = P1.length)
    (hL2 : L2.length = P2.length) (hG2 : G2.length = P2.length)
    (hcase :
      (mask = none ∧ maxLen < (List.zipWith (fun a b => a * b) lA pm).sum ∧
        maxLen < (List.zipWith (fun a b => a * b) lB pm).sum) ∨
      (∃ M1 mj M2, mask = some (M1 ++ mj :: M2) ∧ M1.length = P1.length ∧
        M2.length = P2.length ∧
        (mj = false ∨ (maxLen < (List.zipWith (fun a b => a * b) lA pm).sum ∧
          maxLen < (List.zipWith (fun a b => a * b) lB pm).sum)))) :
    (∀ red, rationale_loss bce (G1 ++ gA :: G2) (L1 ++ lA :: L2)
        (P1 ++ pm :: P2) maxLen red mask =
      rationale_loss bce (G1 ++ gB :: G2) (L1 ++ lB :: L2)
        (P1 ++ pm :: P2) maxLen red mask) ∧
    (ratLossVector bce (G1 ++ gA :: G2) (L1 ++ lA :: L2) (P1 ++ pm :: P2)
        maxLen mask).length =
      (validFlags (L1 ++ lA :: L2) (P1 ++ pm :: P2) maxLen mask).count true := by
  have h2 : (L1 ++ lA :: L2).length = (P1 ++ pm :: P2).length := by
    simp [hL1, hL2]
  have h3 : (L1 ++ lA :: L2).length = (G1 ++ gA :: G2).length := by
    simp [hL1, hL2, hG1, hG2]
  rcases hcase with ⟨hmn, thrA, thrB⟩ | ⟨M1, mj, M2, hms, hM1, hM2, hsub2⟩
  · subst hmn
    have hFA : validFlags (L1 ++ lA :: L2) (P1 ++ pm :: P2) maxLen none =
        ((List.zipWith (List.zipWith (fun a b => a * b)) L1 P1).map List.sum).map
          (fun le => decide (le ≤ maxLen)) ++ false ::
        ((List.zipWith (List.zipWith (fun a b => a * b)) L2 P2).map List.sum).map
          (fun le => decide (le ≤ maxLen)) := by
      rw [validFlags_decomp L1 L2 lA P1 P2 pm maxLen hL1,
        decide_eq_false (not_le.mpr thrA)]
    have hFB : validFlags (L1 ++ lB :: L2) (P1 ++ pm :: P2) maxLen none =
        ((List.zipWith (List.zipWith (fun a b => a * b)) L1 P1).map List.sum).map
          (fun le => decide (le ≤ maxLen)) ++ false ::
        ((List.zipWith (List.zipWith (fun a b => a * b)) L2 P2).map List.sum).map
          (fun le => decide (le ≤ maxLen)) := by
      rw [validFlags_decomp L1 L2 lB P1 P2 pm maxLen hL1,
        decide_eq_false (not_le.mpr thrB)]
    have hvec := ratLossVector_congr bce G1 G2 gA gB L1 L2 lA lB P1 P2 pm maxLen
      none _ _ hFA hFB hL1
      (by simp [List.length_zipWith, hL1])
      (by simp [List.length_zipWith, hL1, hG1])
    refine ⟨fun red => ?_, ?_⟩
    · rw [rationale_loss, rationale_loss, hvec]
    · exact ratLossVector_length bce _ _ _ maxLen none
        (by rw [hFA]; simp [List.length_zipWith, hL1, hL2]) h2 h3
  · subst hms
    have hmidA : (decide ((List.zipWith (fun a b => a * b) lA pm).sum ≤ maxLen)
        && mj) = false := by
      rcases hsub2 with hmj | ⟨thrA, _⟩
      · rw [hmj, Bool.and_false]
      · rw [decide_eq_false (not_le.mpr thrA), Bool.false_and]
    have hmidB : (decide ((List.zipWith (fun a b => a * b) lB pm).sum ≤ maxLen)
        && mj) = false := by
      rcases hsub2 with hmj | ⟨_, thrB⟩
      · rw [hmj, Bool.and_false]
      · rw [decide_eq_false (not_le.mpr thrB), Bool.false_and]
    have hFA : validFlags (L1 ++ lA :: L2) (P1 ++ pm :: P2) maxLen
        (some (M1 ++ mj :: M2)) =
        List.zipWith (fun a b => a && b)
          (((List.zipWith (List.zipWith (fun a b => a * b)) L1 P1).map
            List.sum).map (fun le => decide (le ≤ maxLen))) M1 ++ false ::
        List.zipWith (fun a b => a && b)
          (((List.zipWith (List.zipWith (fun a b => a * b)) L2 P2).map
            List.sum).map (fun le => decide (le ≤ maxLen))) M2 := by
      rw [validFlags_decomp_some L1 L2 lA P1 P2 pm maxLen M1 M2 mj hL1 hM1, hmidA]
    have hFB : validFlags (L1 ++ lB :: L2) (P1 ++ pm :: P2) maxLen
        (some (M1 ++ mj :: M2)) =
        List.zipWith (fun a b => a && b)
          (((List.zipWith (List.zipWith (fun a b => a * b)) L1 P1).map
            List.sum).map (fun le => decide (le ≤ maxLen))) M1 ++ false ::
        List.zipWith (fun a b => a && b)
          (((List.zipWith (List.zipWith (fun a b => a * b)) L2 P2).map
            List.sum).map (fun le => decide (le ≤ maxLen))) M2 := by
      rw [validFlags_decomp_some L1 L2 lB P1 P2 pm maxLen M1 M2 mj hL1 hM1, hmidB]
    have hvec := ratLossVector_congr bce G1 G2 gA gB L1 L2 lA lB P1 P2 pm maxLen
      (some (M1 ++ mj :: M2)) _ _ hFA hFB hL1
      (by simp [List.length_zipWith, hL1, hM1])
      (by simp [List.length_zipWith, hL1, hM1, hG1])
    refine ⟨fun red => ?_, ?_⟩
    · rw [rationale_loss, rationale_loss, hvec]
    · exact ratLossVector_length bce _ _ _ maxLen _
        (by rw [hFA]; simp [List.length_zipWith, hL1, hL2, hM1, hM2]) h2 h3

/-- C4 witness: a two-example batch whose first example exceeds the
rationale-length threshold in both variants; its labels and logits are
changed and the mean loss is unchanged, while the loss vector holds only
the one valid example. -/
theorem C4_excluded_example_inert_witness :
    rationale_loss (fun a b => a + b) [[0, 0, 0], [2, 2, 2]] [[1, 1, 0], [1, 0, 0]]
      [[1, 1, 1], [1, 1, 1]] 1 "mean" none =
    rationale_loss (fun a b => a + b) [[9, 9, 9], [2, 2, 2]] [[1, 1, 1], [1, 0, 0]]
      [[1, 1, 1], [1, 1, 1]] 1 "mean" none ∧
    (ratLossVector (fun a b => a + b) [[0, 0, 0], [2, 2, 2]] [[1, 1, 0], [1, 0, 0]]
      [[1, 1, 1], [1, 1, 1]] 1 none).length =
      (validFlags [[1, 1, 0], [1, 0, 0]] [[1, 1, 1], [1, 1, 1]] 1 none).count true := by
  have h := C4_excluded_example_inert (fun a b => a + b) [] [[2, 2, 2]] [0, 0, 0]
    [9, 9, 9] [] [[1, 0, 0]] [1, 1, 0] [1, 1, 1] [] [[1, 1, 1]] [1, 1, 1] 1 none
    rfl rfl rfl rfl
    (Or.inl ⟨rfl, by norm_num [List.zipWith], by norm_num [List.zipWith]⟩)
  exact ⟨h.1 "mean", h.2⟩
